import Mathlib

/-!
Shallow embedding of the technical-indicator engine of the `dsbot`
repository (package `indicator`, file `internal/exchange/interface.go`
second unit, and the configuration file providing `IndicatorConfig` /
`DefaultConfig`).

Modelling conventions:
* Go `float64` arithmetic is modelled as exact real arithmetic (`ℝ`);
  `math.Sqrt` is `Real.sqrt`.
* Go `int` periods are modelled as `ℕ` (all configured periods are
  non-negative; slice indices in the source are provably in range).
* Go slices become `List ℝ`; the loop `for i := a; i < len(v); i++`
  accumulating into one variable becomes `List.foldl` over `v.drop a`,
  and `v[:k]` becomes `v.take k`.
* Division by zero is total (`x / 0 = 0`) in Lean while it is `NaN`/`Inf`
  in Go; theorems therefore carry the side conditions (`1 ≤ period`)
  under which the source never divides by zero on those paths.
-/

namespace Indicator

open Classical

/-- One OHLCV bar (`models.OHLCV`); the `Timestamp` field is omitted
because no indicator computation reads it. -/
structure OHLCV where
  Open : ℝ
  High : ℝ
  Low : ℝ
  Close : ℝ
  Volume : ℝ

instance : Inhabited OHLCV := ⟨⟨0, 0, 0, 0, 0⟩⟩

/-- The aggregate snapshot of one computation (`models.TechnicalData`). -/
structure TechnicalData where
  SMA5 : ℝ
  SMA20 : ℝ
  SMA50 : ℝ
  EMA12 : ℝ
  EMA26 : ℝ
  MACD : ℝ
  MACDSignal : ℝ
  MACDHistogram : ℝ
  RSI : ℝ
  BBUpper : ℝ
  BBMiddle : ℝ
  BBLower : ℝ
  BBPosition : ℝ
  VolumeMA : ℝ
  VolumeRatio : ℝ
  Resistance : ℝ
  Support : ℝ

/-- Derived trend labels (`models.TrendAnalysis`). -/
structure TrendAnalysis where
  ShortTerm : String
  MediumTerm : String
  MACD : String
  Overall : String
  RSILevel : ℝ

/-- Static/dynamic levels and distances (`models.LevelsAnalysis`). -/
structure LevelsAnalysis where
  StaticResistance : ℝ
  StaticSupport : ℝ
  DynamicResistance : ℝ
  DynamicSupport : ℝ
  PriceVsResistance : ℝ
  PriceVsSupport : ℝ

/-- The parameter set (`IndicatorConfig`). -/
structure IndicatorConfig where
  SMA5Period : ℕ
  SMA20Period : ℕ
  SMA50Period : ℕ
  EMA12Period : ℕ
  EMA26Period : ℕ
  MACDFastPeriod : ℕ
  MACDSlowPeriod : ℕ
  MACDSignalPeriod : ℕ
  RSIPeriod : ℕ
  RSINeutralValue : ℝ
  RSIMaxValue : ℝ
  BBPeriod : ℕ
  BBStdDev : ℝ
  BBMinThreshold : ℝ
  BBDefaultPos : ℝ
  BBUpperAdjust : ℝ
  BBLowerAdjust : ℝ
  VolumeMAPeriod : ℕ
  DefaultVolumeRatio : ℝ
  SupportResistanceLookback : ℕ

/-- The default parameter set (`DefaultConfig`). -/
noncomputable def DefaultConfig : IndicatorConfig where
  SMA5Period := 5
  SMA20Period := 20
  SMA50Period := 50
  EMA12Period := 12
  EMA26Period := 26
  MACDFastPeriod := 12
  MACDSlowPeriod := 26
  MACDSignalPeriod := 9
  RSIPeriod := 14
  RSINeutralValue := 50
  RSIMaxValue := 100
  BBPeriod := 20
  BBStdDev := 2
  BBMinThreshold := 1 / 10000
  BBDefaultPos := 1 / 2
  BBUpperAdjust := 1001 / 1000
  BBLowerAdjust := 999 / 1000
  VolumeMAPeriod := 20
  DefaultVolumeRatio := 1
  SupportResistanceLookback := 20

/-- Projection of the bar list onto its close prices (`extractCloses`). -/
def extractCloses (ohlcvList : List OHLCV) : List ℝ :=
  ohlcvList.map (·.Close)

/-- Projection of the bar list onto its highs (`extractHighs`). -/
def extractHighs (ohlcvList : List OHLCV) : List ℝ :=
  ohlcvList.map (·.High)

/-- Projection of the bar list onto its lows (`extractLows`). -/
def extractLows (ohlcvList : List OHLCV) : List ℝ :=
  ohlcvList.map (·.Low)

/-- Projection of the bar list onto its volumes (`extractVolumes`). -/
def extractVolumes (ohlcvList : List OHLCV) : List ℝ :=
  ohlcvList.map (·.Volume)

/-- Largest entry of a list, 0 when empty (the source's `max` helper:
`maxVal := values[0]`, then every entry larger than the accumulator
replaces it). -/
noncomputable def listMax : List ℝ → ℝ
  | [] => 0
  | v :: rest => (v :: rest).foldl (fun maxVal x => if x > maxVal then x else maxVal) v

/-- Smallest entry of a list, 0 when empty (the source's `min` helper). -/
noncomputable def listMin : List ℝ → ℝ
  | [] => 0
  | v :: rest => (v :: rest).foldl (fun minVal x => if x < minVal then x else minVal) v

/-- Simple moving average (`Calculator.calculateSMA`): mean of the last
`period` entries, with the period shrunk to the available length. -/
noncomputable def calculateSMA (values : List ℝ) (period : ℕ) : ℝ :=
  if values = [] then 0
  else
    let p := if values.length < period then values.length else period
    if p = 0 then 0
    else (values.drop (values.length - p)).sum / (p : ℝ)

/-- Exponential moving average (`Calculator.calculateEMA`): SMA bootstrap
when the data is shorter than the period, else an SMA seed over the first
`period` entries followed by the forward recurrence. -/
noncomputable def calculateEMA (values : List ℝ) (period : ℕ) : ℝ :=
  if values = [] then 0
  else if values.length < period then calculateSMA values values.length
  else
    let multiplier : ℝ := 2 / ((period : ℝ) + 1)
    (values.drop period).foldl
      (fun ema v => v * multiplier + ema * (1 - multiplier))
      (calculateSMA (values.take period) period)

/-- Alias used for the signal line (`Calculator.calculateEMAFromValues`). -/
noncomputable def calculateEMAFromValues (values : List ℝ) (period : ℕ) : ℝ :=
  calculateEMA values period

/-- Historical MACD-line sequence (`Calculator.calculateMACDValues`):
for each i from `slow` to `len(closes)` the difference of the fast and
slow EMA over the length-i prefix `closes[:i]`.  The Go source's second
`len(closes) < minLength` guard and its `len(macdValues) == 0` fallback
are unreachable in the else branch (the range below is then non-empty)
but are kept for fidelity. -/
noncomputable def calculateMACDValues (closes : List ℝ) (fast slow : ℕ) : List ℝ :=
  if closes.length < slow then [0]
  else
    let macdValues := (List.range (closes.length + 1 - slow)).map
      (fun k => calculateEMA (closes.take (slow + k)) fast
        - calculateEMA (closes.take (slow + k)) slow)
    if macdValues = [] then
      [calculateEMA closes fast - calculateEMA closes slow]
    else macdValues

/-- First differences of the value series (`changes` in `calculateRSI`). -/
def rsiChanges (values : List ℝ) : List ℝ :=
  List.zipWith (fun a b => a - b) values.tail values

/-- Positive parts of the changes (`gains` in `calculateRSI`). -/
noncomputable def rsiGains (values : List ℝ) : List ℝ :=
  (rsiChanges values).map (fun change => if change > 0 then change else 0)

/-- Flipped negative parts of the changes (`losses` in `calculateRSI`). -/
noncomputable def rsiLosses (values : List ℝ) : List ℝ :=
  (rsiChanges values).map (fun change => if change > 0 then 0 else -change)

/-- Wilder smoothing over one series (`calculateRSI`'s averaging: the Go
loop updates the gain and loss accumulators independently, so each is the
fold of `avg = (avg*(period-1) + new)/period` over the entries past the
first `period`, seeded with the plain mean of the first `period`). -/
noncomputable def wilderSmooth (period : ℕ) (xs : List ℝ) : ℝ :=
  (xs.drop period).foldl
    (fun avg x => (avg * ((period : ℝ) - 1) + x) / (period : ℝ))
    ((xs.take period).sum / (period : ℝ))

/-- Relative strength index (`Calculator.calculateRSI`). -/
noncomputable def calculateRSI (cfg : IndicatorConfig) (values : List ℝ) (period : ℕ) : ℝ :=
  if values.length < period + 1 then cfg.RSINeutralValue
  else if (rsiChanges values).length < period then cfg.RSINeutralValue
  else
    let avgGain := wilderSmooth period (rsiGains values)
    let avgLoss := wilderSmooth period (rsiLosses values)
    if avgLoss = 0 then
      if avgGain = 0 then cfg.RSINeutralValue else cfg.RSIMaxValue
    else
      cfg.RSIMaxValue - cfg.RSIMaxValue / (1 + avgGain / avgLoss)

/-- Bollinger bands (`Calculator.calculateBollingerBands`), returned as
`(middle, upper, lower)` in the source's order.  The standard deviation is
the population deviation over the same window as the middle band; a
zero-width band is replaced by `middle` scaled by the configured
adjustment factors. -/
noncomputable def calculateBollingerBands (cfg : IndicatorConfig) (values : List ℝ)
    (period : ℕ) (stdDev : ℝ) : ℝ × ℝ × ℝ :=
  if values = [] then (0, 0, 0)
  else
    let p := if values.length < period then values.length else period
    if p = 0 then (0, 0, 0)
    else
      let middle := calculateSMA values p
      let window := values.drop (values.length - p)
      let variance := (window.map (fun v => (v - middle) * (v - middle))).sum
      let std := Real.sqrt (variance / (p : ℝ))
      let upper := middle + std * stdDev
      let lower := middle - std * stdDev
      if upper = lower then (middle, middle * cfg.BBUpperAdjust, middle * cfg.BBLowerAdjust)
      else (middle, upper, lower)

/-- Body of `Calculator.Calculate` past the empty-input guard: assembles
the full snapshot from the extracted series. -/
noncomputable def calculateAll (cfg : IndicatorConfig) (ohlcvList : List OHLCV) :
    TechnicalData :=
  let closes := extractCloses ohlcvList
  let highs := extractHighs ohlcvList
  let lows := extractLows ohlcvList
  let volumes := extractVolumes ohlcvList
  let ema12 := calculateEMA closes cfg.EMA12Period
  let ema26 := calculateEMA closes cfg.EMA26Period
  let macd := ema12 - ema26
  let macdValues := calculateMACDValues closes cfg.MACDFastPeriod cfg.MACDSlowPeriod
  let macdSignal := calculateEMAFromValues macdValues cfg.MACDSignalPeriod
  let bb := calculateBollingerBands cfg closes cfg.BBPeriod cfg.BBStdDev
  let volumeMA := calculateSMA volumes cfg.VolumeMAPeriod
  let lookbackPeriod :=
    if highs.length < cfg.SupportResistanceLookback then highs.length
    else cfg.SupportResistanceLookback
  { SMA5 := calculateSMA closes cfg.SMA5Period
    SMA20 := calculateSMA closes cfg.SMA20Period
    SMA50 := calculateSMA closes cfg.SMA50Period
    EMA12 := ema12
    EMA26 := ema26
    MACD := macd
    MACDSignal := macdSignal
    MACDHistogram := macd - macdSignal
    RSI := calculateRSI cfg closes cfg.RSIPeriod
    BBMiddle := bb.1
    BBUpper := bb.2.1
    BBLower := bb.2.2
    BBPosition :=
      if bb.2.1 > bb.2.2 ∧ bb.2.1 - bb.2.2 > cfg.BBMinThreshold then
        (closes.getLastD 0 - bb.2.2) / (bb.2.1 - bb.2.2)
      else cfg.BBDefaultPos
    VolumeMA := volumeMA
    VolumeRatio :=
      if volumes ≠ [] ∧ volumeMA > 0 then volumes.getLastD 0 / volumeMA
      else cfg.DefaultVolumeRatio
    Resistance :=
      if lookbackPeriod > 0 then listMax (highs.drop (highs.length - lookbackPeriod))
      else closes.getLastD 0
    Support :=
      if lookbackPeriod > 0 then listMin (lows.drop (highs.length - lookbackPeriod))
      else closes.getLastD 0 }

/-- Entry point `Calculator.Calculate`: explicit no-result (`nil`) on an
empty bar sequence, otherwise the assembled snapshot. -/
noncomputable def Calculate (cfg : IndicatorConfig) (ohlcvList : List OHLCV) :
    Option TechnicalData :=
  if ohlcvList = [] then none else some (calculateAll cfg ohlcvList)

/-- Body of `Calculator.CalculateTrendAnalysis` past its guards. -/
noncomputable def trendAnalysisCore (ohlcvList : List OHLCV) (tech : TechnicalData) :
    TrendAnalysis :=
  let currentPrice := (ohlcvList.getLastD default).Close
  let shortTerm := if currentPrice > tech.SMA20 then "上涨" else "下跌"
  let mediumTerm := if currentPrice > tech.SMA50 then "上涨" else "下跌"
  let macdTrend := if tech.MACD > tech.MACDSignal then "bullish" else "bearish"
  let overall :=
    if shortTerm = "上涨" ∧ mediumTerm = "上涨" then "强势上涨"
    else if shortTerm = "下跌" ∧ mediumTerm = "下跌" then "强势下跌"
    else "震荡整理"
  { ShortTerm := shortTerm
    MediumTerm := mediumTerm
    MACD := macdTrend
    Overall := overall
    RSILevel := tech.RSI }

/-- Entry point `Calculator.CalculateTrendAnalysis`: `nil` when the bar
sequence is empty or the snapshot is `nil`. -/
noncomputable def CalculateTrendAnalysis (ohlcvList : List OHLCV) :
    Option TechnicalData → Option TrendAnalysis
  | none => none
  | some tech =>
      if ohlcvList = [] then none else some (trendAnalysisCore ohlcvList tech)

/-- Body of `Calculator.CalculateLevelsAnalysis` past its guards. -/
noncomputable def levelsAnalysisCore (cfg : IndicatorConfig) (ohlcvList : List OHLCV)
    (tech : TechnicalData) : LevelsAnalysis :=
  let currentPrice := (ohlcvList.getLastD default).Close
  let lookback :=
    if ohlcvList.length < cfg.SupportResistanceLookback then ohlcvList.length
    else cfg.SupportResistanceLookback
  if lookback = 0 then
    { StaticResistance := currentPrice
      StaticSupport := currentPrice
      DynamicResistance := tech.BBUpper
      DynamicSupport := tech.BBLower
      PriceVsResistance := 0
      PriceVsSupport := 0 }
  else
    let recentData := ohlcvList.drop (ohlcvList.length - lookback)
    let staticResistance := listMax (extractHighs recentData)
    let staticSupport := listMin (extractLows recentData)
    { StaticResistance := staticResistance
      StaticSupport := staticSupport
      DynamicResistance := tech.BBUpper
      DynamicSupport := tech.BBLower
      PriceVsResistance :=
        if currentPrice > 0 then (staticResistance - currentPrice) / currentPrice * 100
        else 0
      PriceVsSupport :=
        if staticSupport > 0 then (currentPrice - staticSupport) / staticSupport * 100
        else 0 }

/-- Entry point `Calculator.CalculateLevelsAnalysis`: `nil` when the bar
sequence is empty or the snapshot is `nil`. -/
noncomputable def CalculateLevelsAnalysis (cfg : IndicatorConfig) (ohlcvList : List OHLCV) :
    Option TechnicalData → Option LevelsAnalysis
  | none => none
  | some tech =>
      if ohlcvList = [] then none else some (levelsAnalysisCore cfg ohlcvList tech)

/-- The EMA computation as the spec describes it: when the data is shorter
than the period, the SMA over the whole sequence; otherwise the forward
fold of `ema = value*m + ema*(1-m)` with `m = 2/(period+1)` over the
entries at indices `period ..`, started from the SMA of the first
`period` entries.  Stated separately from `calculateEMA` so the
source/spec correspondence is an explicit theorem. -/
noncomputable def emaFromSpec (values : List ℝ) (period : ℕ) : ℝ :=
  if values.length < period then calculateSMA values values.length
  else
    (values.drop period).foldl
      (fun ema v => v * (2 / ((period : ℝ) + 1))
        + ema * (1 - 2 / ((period : ℝ) + 1)))
      (calculateSMA (values.take period) period)

/-- The MACD-line history as the spec describes it: one entry per prefix
length `i` from `slow` up to `closes.length`, in increasing order of `i`,
each entry the fast EMA minus the slow EMA over that prefix. -/
noncomputable def macdHistory (closes : List ℝ) (fast slow : ℕ) : List ℝ :=
  (List.range (closes.length + 1 - slow)).map
    (fun k => calculateEMA (closes.take (slow + k)) fast
      - calculateEMA (closes.take (slow + k)) slow)

/-! Helper lemmas about the fold-based extrema and the Wilder smoothing. -/

lemma le_foldl_max (l : List ℝ) (init : ℝ) :
    init ≤ l.foldl (fun maxVal x => if x > maxVal then x else maxVal) init := by
  induction l generalizing init with
  | nil => exact le_refl _
  | cons y ys ih =>
    refine le_trans ?_ (ih (if y > init then y else init))
    by_cases h : y > init
    · simp only [if_pos h]
      exact le_of_lt h
    · simp only [if_neg h]
      exact le_refl _

lemma mem_le_foldl_max (l : List ℝ) (init x : ℝ) (hx : x ∈ l) :
    x ≤ l.foldl (fun maxVal v => if v > maxVal then v else maxVal) init := by
  induction l generalizing init with
  | nil => cases hx
  | cons y ys ih =>
    rcases List.mem_cons.mp hx with rfl | hmem
    · refine le_trans ?_ (le_foldl_max ys (if x > init then x else init))
      by_cases h : x > init
      · simp only [if_pos h]
        exact le_refl _
      · simp only [if_neg h]
        exact le_of_not_lt h
    · exact ih _ hmem

lemma mem_le_listMax {x : ℝ} {l : List ℝ} (hx : x ∈ l) : x ≤ listMax l := by
  cases l with
  | nil => cases hx
  | cons v rest => exact mem_le_foldl_max _ _ _ hx

lemma foldl_min_le (l : List ℝ) (init : ℝ) :
    l.foldl (fun minVal x => if x < minVal then x else minVal) init ≤ init := by
  induction l generalizing init with
  | nil => exact le_refl _
  | cons y ys ih =>
    refine le_trans (ih (if y < init then y else init)) ?_
    by_cases h : y < init
    · simp only [if_pos h]
      exact le_of_lt h
    · simp only [if_neg h]
      exact le_refl _

lemma foldl_min_le_mem (l : List ℝ) (init x : ℝ) (hx : x ∈ l) :
    l.foldl (fun minVal v => if v < minVal then v else minVal) init ≤ x := by
  induction l generalizing init with
  | nil => cases hx
  | cons y ys ih =>
    rcases List.mem_cons.mp hx with rfl | hmem
    · refine le_trans (foldl_min_le ys (if x < init then x else init)) ?_
      by_cases h : x < init
      · simp only [if_pos h]
        exact le_refl _
      · simp only [if_neg h]
        exact le_of_not_lt h
    · exact ih _ hmem

lemma listMin_le_mem {x : ℝ} {l : List ℝ} (hx : x ∈ l) : listMin l ≤ x := by
  cases l with
  | nil => cases hx
  | cons v rest => exact foldl_min_le_mem _ _ _ hx

lemma listMin_lows_le_listMax_highs (bars : List OHLCV) (hne : bars ≠ [])
    (hwf : ∀ b ∈ bars, b.Low ≤ b.High) :
    listMin (extractLows bars) ≤ listMax (extractHighs bars) := by
  obtain ⟨b, rest, rfl⟩ := List.exists_cons_of_ne_nil hne
  calc listMin (extractLows (b :: rest)) ≤ b.Low :=
        listMin_le_mem (by simp [extractLows])
    _ ≤ b.High := hwf b (List.mem_cons_self _ _)
    _ ≤ listMax (extractHighs (b :: rest)) :=
        mem_le_listMax (by simp [extractHighs])

lemma foldl_wilder_nonneg (period : ℕ) (hp : 1 ≤ period) (l : List ℝ) (init : ℝ)
    (h0 : 0 ≤ init) (hl : ∀ x ∈ l, 0 ≤ x) :
    0 ≤ l.foldl (fun avg x => (avg * ((period : ℝ) - 1) + x) / (period : ℝ)) init := by
  induction l generalizing init with
  | nil => exact h0
  | cons y ys ih =>
    refine ih _ ?_ (fun x hx => hl x (List.mem_cons_of_mem _ hx))
    have hp1 : (1 : ℝ) ≤ (period : ℝ) := by exact_mod_cast hp
    have hy : 0 ≤ y := hl y (List.mem_cons_self _ _)
    apply div_nonneg
    · exact add_nonneg (mul_nonneg h0 (by linarith)) hy
    · linarith

lemma wilderSmooth_nonneg (period : ℕ) (hp : 1 ≤ period) (xs : List ℝ)
    (hxs : ∀ x ∈ xs, 0 ≤ x) : 0 ≤ wilderSmooth period xs := by
  unfold wilderSmooth
  refine foldl_wilder_nonneg period hp _ _ ?_
    (fun x hx => hxs x (List.drop_subset _ _ hx))
  apply div_nonneg
  · exact List.sum_nonneg (fun x hx => hxs x (List.take_subset _ _ hx))
  · positivity

lemma rsiGains_nonneg (values : List ℝ) : ∀ x ∈ rsiGains values, 0 ≤ x := by
  intro x hx
  simp only [rsiGains, List.mem_map] at hx
  obtain ⟨c, _, rfl⟩ := hx
  by_cases h : c > 0
  · simp only [if_pos h]
    exact le_of_lt h
  · simp only [if_neg h]
    exact le_refl _

lemma rsiLosses_nonneg (values : List ℝ) : ∀ x ∈ rsiLosses values, 0 ≤ x := by
  intro x hx
  simp only [rsiLosses, List.mem_map] at hx
  obtain ⟨c, _, rfl⟩ := hx
  by_cases h : c > 0
  · simp only [if_pos h]
    exact le_refl _
  · simp only [if_neg h]
    linarith [le_of_not_lt h]

lemma rsiChanges_length (values : List ℝ) :
    (rsiChanges values).length = values.length - 1 := by
  simp [rsiChanges]

lemma calculateSMA_pos (values : List ℝ) (period : ℕ) (hne : values ≠ [])
    (hp : 1 ≤ period) (hpos : ∀ v ∈ values, 0 < v) :
    0 < calculateSMA values period := by
  unfold calculateSMA
  rw [if_neg hne]
  have hlen : 1 ≤ values.length := List.length_pos.mpr hne
  set q := if values.length < period then values.length else period with hq
  have hq1 : 1 ≤ q := by
    rw [hq]; split <;> omega
  have hq2 : q ≤ values.length := by
    rw [hq]; split <;> omega
  rw [if_neg (by omega : ¬ q = 0)]
  apply div_pos
  · apply List.sum_pos
    · exact fun x hx => hpos x (List.drop_subset _ _ hx)
    · have : (values.drop (values.length - q)).length = q := by
        rw [List.length_drop]
        omega
      intro hcon
      rw [hcon] at this
      simp at this
      omega
  · exact_mod_cast hq1

lemma calculateEMA_single_zero (p : ℕ) : calculateEMA [(0 : ℝ)] p = 0 := by
  unfold calculateEMA
  rcases p with _ | _ | n <;> simp [calculateSMA]

lemma calculateMACDValues_eq_history (closes : List ℝ) (fast slow : ℕ)
    (h : slow ≤ closes.length) :
    calculateMACDValues closes fast slow = macdHistory closes fast slow := by
  unfold calculateMACDValues macdHistory
  rw [if_neg (not_lt.mpr h)]
  rw [if_neg ?_]
  simp only [ne_eq, List.map_eq_nil_iff, List.range_eq_nil]
  omega

/-- C1: an empty bar sequence yields an explicit no-result (`none`) from
`Calculate`, `CalculateTrendAnalysis` and `CalculateLevelsAnalysis`, and
every non-empty bar sequence yields an actual snapshot from `Calculate`. -/
theorem pipeline_empty_input_policy (cfg : IndicatorConfig)
    (tech : Option TechnicalData) (ohlcvList : List OHLCV) (hne : ohlcvList ≠ []) :
    Calculate cfg [] = none ∧
    CalculateTrendAnalysis [] tech = none ∧
    CalculateLevelsAnalysis cfg [] tech = none ∧
    Calculate cfg ohlcvList = some (calculateAll cfg ohlcvList) := by
  refine ⟨by simp [Calculate], ?_, ?_, by simp [Calculate, hne]⟩
  · cases tech <;> simp [CalculateTrendAnalysis]
  · cases tech <;> simp [CalculateLevelsAnalysis]

/-- Closed instance of `pipeline_empty_input_policy` at a one-bar input. -/
theorem pipeline_empty_input_policy_witness :
    ([⟨1, 1, 1, 1, 1⟩] : List OHLCV) ≠ [] ∧
    Calculate DefaultConfig [⟨1, 1, 1, 1, 1⟩]
      = some (calculateAll DefaultConfig [⟨1, 1, 1, 1, 1⟩]) := by
  have h : ([⟨1, 1, 1, 1, 1⟩] : List OHLCV) ≠ [] := by simp
  exact ⟨h, (pipeline_empty_input_policy DefaultConfig none _ h).2.2.2⟩

/-- C2: `calculateEMA` coincides with the spec's description `emaFromSpec`
(SMA over the whole sequence when shorter than the period, otherwise the
forward recurrence with multiplier `2/(period+1)` from an SMA seed over
the first `period` values). -/
theorem calculateEMA_spec (values : List ℝ) (period : ℕ) :
    calculateEMA values period = emaFromSpec values period := by
  unfold calculateEMA emaFromSpec
  by_cases hne : values = []
  · subst hne
    simp [calculateSMA]
  · rw [if_neg hne]

/-- C8: `calculateSMA` returns 0 on the empty list; for `period ≤ length`
it is the arithmetic mean of the last `period` entries, and for
`length < period` it is the mean of the whole sequence. -/
theorem calculateSMA_spec (values : List ℝ) (period : ℕ)
    (hp : 1 ≤ period) (hne : values ≠ []) :
    calculateSMA ([] : List ℝ) period = 0 ∧
    (period ≤ values.length →
      calculateSMA values period
        = (values.drop (values.length - period)).sum / (period : ℝ)) ∧
    (values.length < period →
      calculateSMA values period = values.sum / (values.length : ℝ)) := by
  refine ⟨by simp [calculateSMA], fun h => ?_, fun h => ?_⟩
  · simp only [calculateSMA, if_neg hne, if_neg (not_lt.mpr h)]
    rw [if_neg (by omega : ¬ period = 0)]
  · have h0 : values.length ≠ 0 := by
      simpa [List.length_eq_zero] using hne
    simp only [calculateSMA, if_neg hne, if_pos h]
    rw [if_neg h0, Nat.sub_self, List.drop_zero]

/-- Closed instance of `calculateSMA_spec`: the spec's Scenario A,
`SMA([10,20,30], 5) = 20` through the shrunk-period branch. -/
theorem calculateSMA_spec_witness :
    (1 : ℕ) ≤ 5 ∧ ([10, 20, 30] : List ℝ) ≠ [] ∧
    (([10, 20, 30] : List ℝ).length < 5 →
      calculateSMA [10, 20, 30] 5
        = ([10, 20, 30] : List ℝ).sum / (([10, 20, 30] : List ℝ).length : ℝ)) := by
  have h1 : (1 : ℕ) ≤ 5 := by omega
  have h2 : ([10, 20, 30] : List ℝ) ≠ [] := by simp
  exact ⟨h1, h2, (calculateSMA_spec [10, 20, 30] 5 h1 h2).2.2⟩

/-- C3: with at least `slow` closes, the published signal line is the EMA
(signal period) of the MACD history over growing prefixes, and the
published histogram is the MACD line minus the signal line. -/
theorem macd_signal_from_history (cfg : IndicatorConfig) (ohlcvList : List OHLCV)
    (hne : ohlcvList ≠ [])
    (hlen : cfg.MACDSlowPeriod ≤ (extractCloses ohlcvList).length) :
    Calculate cfg ohlcvList = some (calculateAll cfg ohlcvList) ∧
    (calculateAll cfg ohlcvList).MACDSignal =
      calculateEMA
        (macdHistory (extractCloses ohlcvList) cfg.MACDFastPeriod cfg.MACDSlowPeriod)
        cfg.MACDSignalPeriod ∧
    (calculateAll cfg ohlcvList).MACDHistogram =
      (calculateAll cfg ohlcvList).MACD - (calculateAll cfg ohlcvList).MACDSignal := by
  refine ⟨by simp [Calculate, hne], ?_, ?_⟩
  · simp only [calculateAll, calculateEMAFromValues]
    rw [calculateMACDValues_eq_history _ _ _ hlen]
  · simp only [calculateAll]

/-- Closed instance of `macd_signal_from_history` on 26 identical bars. -/
theorem macd_signal_from_history_witness :
    (List.replicate 26 (⟨1, 1, 1, 1, 1⟩ : OHLCV)) ≠ [] ∧
    DefaultConfig.MACDSlowPeriod
      ≤ (extractCloses (List.replicate 26 (⟨1, 1, 1, 1, 1⟩ : OHLCV))).length ∧
    (calculateAll DefaultConfig (List.replicate 26 ⟨1, 1, 1, 1, 1⟩)).MACDSignal =
      calculateEMA
        (macdHistory (extractCloses (List.replicate 26 (⟨1, 1, 1, 1, 1⟩ : OHLCV)))
          DefaultConfig.MACDFastPeriod DefaultConfig.MACDSlowPeriod)
        DefaultConfig.MACDSignalPeriod := by
  have h1 : (List.replicate 26 (⟨1, 1, 1, 1, 1⟩ : OHLCV)) ≠ [] := by
    simp [List.replicate]
  have h2 : DefaultConfig.MACDSlowPeriod
      ≤ (extractCloses (List.replicate 26 (⟨1, 1, 1, 1, 1⟩ : OHLCV))).length := by
    simp [extractCloses, DefaultConfig]
  exact ⟨h1, h2, (macd_signal_from_history DefaultConfig _ h1 h2).2.1⟩

/-- C9: the last entry of the MACD history is the full-series fast EMA
minus slow EMA; when the top-level EMA periods coincide with the MACD
fast/slow periods (as in every shipped configuration) it is exactly the
published MACD line. -/
theorem macd_history_last (cfg : IndicatorConfig) (ohlcvList : List OHLCV)
    (hlen : cfg.MACDSlowPeriod ≤ (extractCloses ohlcvList).length)
    (hfast : cfg.EMA12Period = cfg.MACDFastPeriod)
    (hslow : cfg.EMA26Period = cfg.MACDSlowPeriod) :
    (calculateMACDValues (extractCloses ohlcvList) cfg.MACDFastPeriod
        cfg.MACDSlowPeriod).getLast?
      = some (calculateEMA (extractCloses ohlcvList) cfg.MACDFastPeriod
          - calculateEMA (extractCloses ohlcvList) cfg.MACDSlowPeriod) ∧
    (calculateMACDValues (extractCloses ohlcvList) cfg.MACDFastPeriod
        cfg.MACDSlowPeriod).getLast?
      = some ((calculateAll cfg ohlcvList).MACD) := by
  have h1 : (calculateMACDValues (extractCloses ohlcvList) cfg.MACDFastPeriod
      cfg.MACDSlowPeriod).getLast?
      = some (calculateEMA (extractCloses ohlcvList) cfg.MACDFastPeriod
        - calculateEMA (extractCloses ohlcvList) cfg.MACDSlowPeriod) := by
    rw [calculateMACDValues_eq_history _ _ _ hlen]
    unfold macdHistory
    have hn : (extractCloses ohlcvList).length + 1 - cfg.MACDSlowPeriod
        = ((extractCloses ohlcvList).length - cfg.MACDSlowPeriod) + 1 := by omega
    rw [hn, List.range_succ, List.map_append, List.map_singleton,
      List.getLast?_concat]
    rw [Nat.add_sub_cancel' hlen, List.take_length]
  have h2 : (calculateAll cfg ohlcvList).MACD
      = calculateEMA (extractCloses ohlcvList) cfg.MACDFastPeriod
        - calculateEMA (extractCloses ohlcvList) cfg.MACDSlowPeriod := by
    simp only [calculateAll]
    rw [hfast, hslow]
  exact ⟨h1, by rw [h1, h2]⟩

/-- Closed instance of `macd_history_last` on 26 identical bars. -/
theorem macd_history_last_witness :
    DefaultConfig.MACDSlowPeriod
      ≤ (extractCloses (List.replicate 26 (⟨1, 1, 1, 1, 1⟩ : OHLCV))).length ∧
    DefaultConfig.EMA12Period = DefaultConfig.MACDFastPeriod ∧
    DefaultConfig.EMA26Period = DefaultConfig.MACDSlowPeriod ∧
    (calculateMACDValues (extractCloses (List.replicate 26 (⟨1, 1, 1, 1, 1⟩ : OHLCV)))
        DefaultConfig.MACDFastPeriod DefaultConfig.MACDSlowPeriod).getLast?
      = some ((calculateAll DefaultConfig
          (List.replicate 26 (⟨1, 1, 1, 1, 1⟩ : OHLCV))).MACD) := by
  have h2 : DefaultConfig.MACDSlowPeriod
      ≤ (extractCloses (List.replicate 26 (⟨1, 1, 1, 1, 1⟩ : OHLCV))).length := by
    simp [extractCloses, DefaultConfig]
  exact ⟨h2, rfl, rfl,
    (macd_history_last DefaultConfig _ h2 rfl rfl).2⟩

/-- C10: a non-empty close series shorter than the slow period yields the
single-element MACD history `[0]`, hence a published signal line of 0 and
a histogram equal to the MACD line. -/
theorem macd_short_series (cfg : IndicatorConfig) (ohlcvList : List OHLCV)
    (hne : ohlcvList ≠ [])
    (hlen : (extractCloses ohlcvList).length < cfg.MACDSlowPeriod) :
    Calculate cfg ohlcvList = some (calculateAll cfg ohlcvList) ∧
    calculateMACDValues (extractCloses ohlcvList) cfg.MACDFastPeriod
        cfg.MACDSlowPeriod = [0] ∧
    (calculateAll cfg ohlcvList).MACDSignal = 0 ∧
    (calculateAll cfg ohlcvList).MACDHistogram = (calculateAll cfg ohlcvList).MACD := by
  have hv : calculateMACDValues (extractCloses ohlcvList) cfg.MACDFastPeriod
      cfg.MACDSlowPeriod = [0] := by
    unfold calculateMACDValues
    rw [if_pos hlen]
  refine ⟨by simp [Calculate, hne], hv, ?_, ?_⟩
  · simp only [calculateAll, calculateEMAFromValues]
    rw [hv, calculateEMA_single_zero]
  · simp only [calculateAll, calculateEMAFromValues]
    rw [hv, calculateEMA_single_zero, sub_zero]

/-- Closed instance of `macd_short_series` at a one-bar input. -/
theorem macd_short_series_witness :
    ([⟨1, 1, 1, 1, 1⟩] : List OHLCV) ≠ [] ∧
    (extractCloses ([⟨1, 1, 1, 1, 1⟩] : List OHLCV)).length
      < DefaultConfig.MACDSlowPeriod ∧
    (calculateAll DefaultConfig [⟨1, 1, 1, 1, 1⟩]).MACDSignal = 0 := by
  have h1 : ([⟨1, 1, 1, 1, 1⟩] : List OHLCV) ≠ [] := by simp
  have h2 : (extractCloses ([⟨1, 1, 1, 1, 1⟩] : List OHLCV)).length
      < DefaultConfig.MACDSlowPeriod := by
    simp [extractCloses, DefaultConfig]
  exact ⟨h1, h2, (macd_short_series DefaultConfig _ h1 h2).2.2.1⟩

/-- C4: the degenerate-case postcondition of `calculateRSI`.  Too little
history returns the neutral value; otherwise, writing `avgGain`/`avgLoss`
for the Wilder-smoothed averages (seeded by the plain mean of the first
`period` gains/losses and updated with `avg = (avg*(period-1)+new)/period`),
a zero `avgLoss` returns the maximum when `avgGain` is positive and the
neutral value when `avgGain` is also zero, and otherwise the result is
`max - max/(1 + avgGain/avgLoss)`. -/
theorem calculateRSI_cases (cfg : IndicatorConfig) (values : List ℝ) (period : ℕ)
    (hp : 1 ≤ period) :
    (values.length < period + 1 → calculateRSI cfg values period = cfg.RSINeutralValue) ∧
    (period + 1 ≤ values.length →
      (wilderSmooth period (rsiLosses values) = 0 →
        (0 < wilderSmooth period (rsiGains values) →
          calculateRSI cfg values period = cfg.RSIMaxValue) ∧
        (wilderSmooth period (rsiGains values) = 0 →
          calculateRSI cfg values period = cfg.RSINeutralValue)) ∧
      (wilderSmooth period (rsiLosses values) ≠ 0 →
        calculateRSI cfg values period
          = cfg.RSIMaxValue
            - cfg.RSIMaxValue
              / (1 + wilderSmooth period (rsiGains values)
                / wilderSmooth period (rsiLosses values)))) := by
  constructor
  · intro h
    simp only [calculateRSI, if_pos h]
  · intro h
    have hnl : ¬ values.length < period + 1 := by omega
    have hch : ¬ (rsiChanges values).length < period := by
      rw [rsiChanges_length]; omega
    refine ⟨fun hL => ⟨fun hG => ?_, fun hG => ?_⟩, fun hL => ?_⟩
    · simp only [calculateRSI, if_neg hnl, if_neg hch, if_pos hL,
        if_neg (ne_of_gt hG)]
    · simp only [calculateRSI, if_neg hnl, if_neg hch, if_pos hL, if_pos hG]
    · simp only [calculateRSI, if_neg hnl, if_neg hch, if_neg hL]

/-- Closed instance of `calculateRSI_cases` with period 1 on two closes. -/
theorem calculateRSI_cases_witness :
    (1 : ℕ) ≤ 1 ∧
    (([3, 5] : List ℝ).length < 1 + 1 →
      calculateRSI DefaultConfig [3, 5] 1 = DefaultConfig.RSINeutralValue) := by
  exact ⟨le_refl 1, (calculateRSI_cases DefaultConfig [3, 5] 1 (le_refl 1)).1⟩

/-- C5: with at least `period+1` values, a positive period and a sane
configuration (`0 ≤ neutral ≤ max`, true of every shipped preset), the
RSI lies in the closed interval `[0, max]`. -/
theorem calculateRSI_bounds (cfg : IndicatorConfig) (values : List ℝ) (period : ℕ)
    (hp : 1 ≤ period) (hlen : period + 1 ≤ values.length)
    (h0 : 0 ≤ cfg.RSINeutralValue) (h1 : cfg.RSINeutralValue ≤ cfg.RSIMaxValue) :
    0 ≤ calculateRSI cfg values period ∧
    calculateRSI cfg values period ≤ cfg.RSIMaxValue := by
  have hmax : 0 ≤ cfg.RSIMaxValue := le_trans h0 h1
  have hnl : ¬ values.length < period + 1 := by omega
  have hch : ¬ (rsiChanges values).length < period := by
    rw [rsiChanges_length]; omega
  have hG : 0 ≤ wilderSmooth period (rsiGains values) :=
    wilderSmooth_nonneg period hp _ (rsiGains_nonneg values)
  have hL : 0 ≤ wilderSmooth period (rsiLosses values) :=
    wilderSmooth_nonneg period hp _ (rsiLosses_nonneg values)
  simp only [calculateRSI, if_neg hnl, if_neg hch]
  by_cases hL0 : wilderSmooth period (rsiLosses values) = 0
  · rw [if_pos hL0]
    by_cases hG0 : wilderSmooth period (rsiGains values) = 0
    · rw [if_pos hG0]
      exact ⟨h0, h1⟩
    · rw [if_neg hG0]
      exact ⟨hmax, le_refl _⟩
  · rw [if_neg hL0]
    have hrs : 0 ≤ wilderSmooth period (rsiGains values)
        / wilderSmooth period (rsiLosses values) := div_nonneg hG hL
    have hup : cfg.RSIMaxValue
        / (1 + wilderSmooth period (rsiGains values)
          / wilderSmooth period (rsiLosses values)) ≤ cfg.RSIMaxValue :=
      div_le_self hmax (by linarith)
    have hdn : 0 ≤ cfg.RSIMaxValue
        / (1 + wilderSmooth period (rsiGains values)
          / wilderSmooth period (rsiLosses values)) :=
      div_nonneg hmax (by linarith)
    exact ⟨by linarith, by linarith⟩

/-- Closed instance of `calculateRSI_bounds` with period 1 on two closes. -/
theorem calculateRSI_bounds_witness :
    (1 : ℕ) ≤ 1 ∧ 1 + 1 ≤ ([3, 5] : List ℝ).length ∧
    (0 : ℝ) ≤ DefaultConfig.RSINeutralValue ∧
    DefaultConfig.RSINeutralValue ≤ DefaultConfig.RSIMaxValue ∧
    0 ≤ calculateRSI DefaultConfig [3, 5] 1 := by
  have hlen : 1 + 1 ≤ ([3, 5] : List ℝ).length := by simp
  have h0 : (0 : ℝ) ≤ DefaultConfig.RSINeutralValue := by
    simp [DefaultConfig]
  have h1 : DefaultConfig.RSINeutralValue ≤ DefaultConfig.RSIMaxValue := by
    simp [DefaultConfig]
    norm_num
  exact ⟨le_refl 1, hlen, h0, h1,
    (calculateRSI_bounds DefaultConfig [3, 5] 1 (le_refl 1) hlen h0 h1).1⟩

/-- C6 fails as stated: on the one-element series `[-1]` (any non-positive
close does it) the zero-variance correction fires and produces
`upper = -1.001 < middle = -1` and a negative band width, so neither
`upper ≥ middle` nor a strictly positive post-correction width holds for
every non-empty value sequence. -/
theorem bollinger_order_counterexample :
    (calculateBollingerBands DefaultConfig [(-1 : ℝ)] 20 2).2.1 <
      (calculateBollingerBands DefaultConfig [(-1 : ℝ)] 20 2).1 ∧
    ¬ ((calculateBollingerBands DefaultConfig [(-1 : ℝ)] 20 2).2.2 <
        (calculateBollingerBands DefaultConfig [(-1 : ℝ)] 20 2).2.1) := by
  constructor
  · simp [calculateBollingerBands, calculateSMA, DefaultConfig]
    norm_num
  · simp [calculateBollingerBands, calculateSMA, DefaultConfig]
    norm_num

/-- C6 amended: for positive data, a positive period, a non-negative
multiplier and adjustment factors with `lowerAdjust ≤ 1 ≤ upperAdjust` and
`lowerAdjust < upperAdjust` (as in every shipped configuration), the bands
satisfy `lower ≤ middle ≤ upper` and `lower < upper` — in particular the
band width is strictly positive also when the zero-variance correction
fires. -/
theorem bollinger_bands_order (cfg : IndicatorConfig) (values : List ℝ)
    (period : ℕ) (stdDev : ℝ) (hne : values ≠ []) (hper : 1 ≤ period)
    (hpos : ∀ v ∈ values, 0 < v) (hsd : 0 ≤ stdDev)
    (hlo : cfg.BBLowerAdjust ≤ 1) (hhi : 1 ≤ cfg.BBUpperAdjust)
    (hadj : cfg.BBLowerAdjust < cfg.BBUpperAdjust) :
    (calculateBollingerBands cfg values period stdDev).2.2
        ≤ (calculateBollingerBands cfg values period stdDev).1 ∧
    (calculateBollingerBands cfg values period stdDev).1
        ≤ (calculateBollingerBands cfg values period stdDev).2.1 ∧
    (calculateBollingerBands cfg values period stdDev).2.2
        < (calculateBollingerBands cfg values period stdDev).2.1 := by
  have hlen : 1 ≤ values.length := List.length_pos.mpr hne
  simp only [calculateBollingerBands, if_neg hne]
  set q := if values.length < period then values.length else period with hq
  have hq1 : 1 ≤ q := by
    rw [hq]; split <;> omega
  rw [if_neg (by omega : ¬ q = 0)]
  set middle := calculateSMA values q with hmidd
  have hmpos : 0 < middle := calculateSMA_pos values q hne hq1 hpos
  set std := Real.sqrt
    (((values.drop (values.length - q)).map
      (fun v => (v - middle) * (v - middle))).sum / (q : ℝ)) with hstdd
  have hstd0 : 0 ≤ std := Real.sqrt_nonneg _
  by_cases hcorr : middle + std * stdDev = middle - std * stdDev
  · rw [if_pos hcorr]
    refine ⟨?_, ?_, ?_⟩
    · exact mul_le_of_le_one_right (le_of_lt hmpos) hlo
    · exact le_mul_of_one_le_right (le_of_lt hmpos) hhi
    · exact (mul_lt_mul_left hmpos).mpr hadj
  · rw [if_neg hcorr]
    have hs : 0 ≤ std * stdDev := mul_nonneg hstd0 hsd
    have hsne : std * stdDev ≠ 0 := by
      intro hzero
      exact hcorr (by rw [hzero]; ring)
    have hspos : 0 < std * stdDev := lt_of_le_of_ne hs (Ne.symm hsne)
    refine ⟨?_, ?_, ?_⟩ <;> dsimp only <;> linarith

/-- Closed instance of `bollinger_bands_order` on the series `[1, 2]`. -/
theorem bollinger_bands_order_witness :
    ([1, 2] : List ℝ) ≠ [] ∧ (1 : ℕ) ≤ 2 ∧
    (∀ v ∈ ([1, 2] : List ℝ), 0 < v) ∧ (0 : ℝ) ≤ 2 ∧
    DefaultConfig.BBLowerAdjust ≤ 1 ∧ (1 : ℝ) ≤ DefaultConfig.BBUpperAdjust ∧
    DefaultConfig.BBLowerAdjust < DefaultConfig.BBUpperAdjust ∧
    (calculateBollingerBands DefaultConfig [1, 2] 2 2).2.2
      < (calculateBollingerBands DefaultConfig [1, 2] 2 2).2.1 := by
  have hne : ([1, 2] : List ℝ) ≠ [] := by simp
  have hpos : ∀ v ∈ ([1, 2] : List ℝ), 0 < v := by
    intro v hv
    simp at hv
    rcases hv with rfl | rfl <;> norm_num
  have hlo : DefaultConfig.BBLowerAdjust ≤ 1 := by
    simp [DefaultConfig]; norm_num
  have hhi : (1 : ℝ) ≤ DefaultConfig.BBUpperAdjust := by
    simp [DefaultConfig]; norm_num
  have hadj : DefaultConfig.BBLowerAdjust < DefaultConfig.BBUpperAdjust := by
    simp [DefaultConfig]; norm_num
  exact ⟨hne, by omega, hpos, by norm_num, hlo, hhi, hadj,
    (bollinger_bands_order DefaultConfig [1, 2] 2 2 hne (by omega) hpos
      (by norm_num) hlo hhi hadj).2.2⟩

/-- C7 fails as stated: a malformed bar with `High = 0 < Low = 1` (nothing
in the pipeline validates `High ≥ Low`) makes the snapshot's Resistance
strictly smaller than its Support, and likewise for the static levels. -/
theorem levels_order_counterexample :
    (calculateAll DefaultConfig [⟨0, 0, 1, 0, 0⟩]).Resistance <
      (calculateAll DefaultConfig [⟨0, 0, 1, 0, 0⟩]).Support ∧
    (levelsAnalysisCore DefaultConfig [⟨0, 0, 1, 0, 0⟩]
        (calculateAll DefaultConfig [⟨0, 0, 1, 0, 0⟩])).StaticResistance <
      (levelsAnalysisCore DefaultConfig [⟨0, 0, 1, 0, 0⟩]
        (calculateAll DefaultConfig [⟨0, 0, 1, 0, 0⟩])).StaticSupport := by
  constructor
  · simp [calculateAll, extractHighs, extractLows, extractCloses, DefaultConfig,
      listMax, listMin]
  · simp [levelsAnalysisCore, extractHighs, extractLows, DefaultConfig,
      listMax, listMin]

lemma extractHighs_drop (bars : List OHLCV) (k : ℕ) :
    (extractHighs bars).drop k = extractHighs (bars.drop k) := by
  exact Eq.symm (List.map_drop _ bars k)

lemma extractLows_drop (bars : List OHLCV) (k : ℕ) :
    (extractLows bars).drop k = extractLows (bars.drop k) := by
  exact Eq.symm (List.map_drop _ bars k)

lemma drop_ne_nil_of_lt {α : Type} (l : List α) (k : ℕ) (h : k < l.length) :
    l.drop k ≠ [] := by
  intro hcon
  have := congrArg List.length hcon
  simp [List.length_drop] at this
  omega

/-- C7 amended: for every non-empty bar sequence in which each bar
satisfies `Low ≤ High` (as real market bars do; the pipeline itself never
checks it), the snapshot's Resistance is at least its Support, and the
static resistance of the levels analysis is at least its static support. -/
theorem resistance_ge_support (cfg : IndicatorConfig) (ohlcvList : List OHLCV)
    (tech : TechnicalData) (hne : ohlcvList ≠ [])
    (hwf : ∀ b ∈ ohlcvList, b.Low ≤ b.High) :
    (calculateAll cfg ohlcvList).Support ≤ (calculateAll cfg ohlcvList).Resistance ∧
    (levelsAnalysisCore cfg ohlcvList tech).StaticSupport
      ≤ (levelsAnalysisCore cfg ohlcvList tech).StaticResistance := by
  have hlen : 1 ≤ ohlcvList.length := List.length_pos.mpr hne
  have hhlen : (extractHighs ohlcvList).length = ohlcvList.length := by
    simp [extractHighs]
  constructor
  · simp only [calculateAll]
    set lb := if (extractHighs ohlcvList).length < cfg.SupportResistanceLookback
      then (extractHighs ohlcvList).length else cfg.SupportResistanceLookback with hlb
    by_cases hlb0 : lb > 0
    · rw [if_pos hlb0, if_pos hlb0]
      have hlble : lb ≤ ohlcvList.length := by
        rw [hlb]; rw [hhlen]; split <;> omega
      have hk : (extractHighs ohlcvList).length - lb < ohlcvList.length := by
        rw [hhlen]; omega
      rw [extractHighs_drop, extractLows_drop]
      exact listMin_lows_le_listMax_highs _
        (drop_ne_nil_of_lt _ _ hk)
        (fun b hb => hwf b (List.drop_subset _ _ hb))
    · rw [if_neg hlb0, if_neg hlb0]
  · simp only [levelsAnalysisCore]
    set lb := if ohlcvList.length < cfg.SupportResistanceLookback
      then ohlcvList.length else cfg.SupportResistanceLookback with hlb
    by_cases hlb0 : lb = 0
    · rw [if_pos hlb0]
    · rw [if_neg hlb0]
      have hlble : lb ≤ ohlcvList.length := by
        rw [hlb]; split <;> omega
      have hk : ohlcvList.length - lb < ohlcvList.length := by omega
      exact listMin_lows_le_listMax_highs _
        (drop_ne_nil_of_lt _ _ hk)
        (fun b hb => hwf b (List.drop_subset _ _ hb))

/-- Closed instance of `resistance_ge_support` at a well-formed one-bar
input. -/
theorem resistance_ge_support_witness :
    ([⟨1, 2, 1, 1, 1⟩] : List OHLCV) ≠ [] ∧
    (∀ b ∈ ([⟨1, 2, 1, 1, 1⟩] : List OHLCV), b.Low ≤ b.High) ∧
    (calculateAll DefaultConfig [⟨1, 2, 1, 1, 1⟩]).Support
      ≤ (calculateAll DefaultConfig [⟨1, 2, 1, 1, 1⟩]).Resistance := by
  have hne : ([⟨1, 2, 1, 1, 1⟩] : List OHLCV) ≠ [] := by simp
  have hwf : ∀ b ∈ ([⟨1, 2, 1, 1, 1⟩] : List OHLCV), b.Low ≤ b.High := by
    intro b hb
    simp at hb
    subst hb
    norm_num
  exact ⟨hne, hwf,
    (resistance_ge_support DefaultConfig _
      (calculateAll DefaultConfig [⟨1, 2, 1, 1, 1⟩]) hne hwf).1⟩

end Indicator
